import Mathlib

/-!
Verification of the in-memory query pipeline and map-overlay logic of the
pNode fleet-dashboard frontend.

The embedding models the `filteredAndSorted` / pagination logic of the
`PNodesTable` component, the `createMarkerIcon` recency flag of the map
markers, and the `adjustPopupPosition` overlay placer.

Modelling conventions:
* JavaScript numbers are modelled as `ℚ` (all arithmetic in the modelled
  code is exact on the values of interest; float rounding is not load-bearing
  for any claim).
* `Date` values / `getTime()` results are modelled as `Option ℤ`:
  `some t` is a finite millisecond timestamp, `none` models an invalid date
  (whose `getTime()` is `NaN`).  Where the code computes `aTime - bTime`
  with a `NaN` operand, the result is `NaN`; ECMAScript `SortCompare`
  coerces a `NaN` comparator result to `+0`, so the embedded comparator
  returns `0` in that case.
* `Array.prototype.sort` (ES2019+: stable) is modelled as `List.mergeSort`
  with `le a b := comparator a b ≤ 0`.  For a consistent comparator this is
  the unique stable result required by ECMAScript; for an inconsistent
  comparator ECMAScript leaves the order implementation-defined and the
  model fixes the merge-sort order.
* `localeCompare` is modelled as the lexicographic comparison on `String`
  (returning -1/0/1); the claims under study do not depend on the
  particular total order used.
-/

/-- `PNode['status']`: the status union type `'online' | 'offline'`. -/
inductive Status where
  | online
  | offline
deriving DecidableEq

/-- A node record (`PNode` from `usePNodes`), with exactly the fields the
`PNodesTable` pipeline reads.  Optional / possibly-absent fields are
`Option`s; `lastSeen` is the parsed timestamp (`none` = unparsable date). -/
structure PNode where
  pubkey : String
  status : Status
  healthScore : Option ℚ
  tier : Option String
  storageUsed : ℚ
  storageTotal : ℚ
  storageUtilization : Option ℚ
  ramUsed : Option ℚ
  ramTotal : Option ℚ
  version : Option String
  region : Option String
  ip : Option String
  lastSeen : Option ℤ
deriving DecidableEq

/-- The sort-field union type `SortField` of `PNodesTable`. -/
inductive SortField where
  | pubkey
  | storageUsed
  | lastSeen
  | status
  | healthScore
  | storageUtilization
  | tier
  | version
  | region
  | ramUsed
  | ramUtilization
deriving DecidableEq

/-- The sort-direction union type `SortDirection`. -/
inductive SortDirection where
  | asc
  | desc
deriving DecidableEq

/-- The `nodeRamData` map: pubkey → `{ used, total }` (if present). -/
def RamMap : Type := String → Option (ℚ × ℚ)

/-- `nodeRamData`: built by iterating over `pnodes` and `Map.set`ting an
entry whenever both `ramUsed` and `ramTotal` are defined (later entries for
the same pubkey overwrite earlier ones, as `Map.set` does). -/
def buildRamMap (pnodes : List PNode) : RamMap := fun p =>
  pnodes.foldl
    (fun acc node =>
      match node.ramUsed, node.ramTotal with
      | some u, some t => if node.pubkey = p then some (u, t) else acc
      | _, _ => acc)
    none

/-- The `storageUsed` sort key: `a.storageTotal > 0 ? (a.storageUsed / a.storageTotal) : 0`
(the code sorts this column by utilization ratio, guarding division by zero). -/
def storageUsedKey (n : PNode) : ℚ :=
  if 0 < n.storageTotal then n.storageUsed / n.storageTotal else 0

/-- The `storageUtilization` sort key:
`a.storageUtilization ?? (a.storageTotal > 0 ? (a.storageUsed / a.storageTotal) * 100 : 0)`. -/
def storageUtilizationKey (n : PNode) : ℚ :=
  match n.storageUtilization with
  | some u => u
  | none => if 0 < n.storageTotal then n.storageUsed / n.storageTotal * 100 else 0

/-- `statusOrder`: `{ online: 0, offline: 1 }` (the `?? 2` fallback in the
code is unreachable because the status union has exactly these two values). -/
def statusRank : Status → ℚ
  | .online => 0
  | .offline => 1

/-- The `healthScore` sort key: `(a.healthScore || 0)` — an absent score is
treated as numeric 0 (and a score of 0 is of course also 0). -/
def healthKey (n : PNode) : ℚ := n.healthScore.getD 0

/-- `tierOrder`: `{ 'Excellent': 0, 'Good': 1, 'Poor': 2 }` with `?? 3` for
anything else (including the `''` default for an absent tier). -/
def tierRank (s : String) : ℚ :=
  if s = "Excellent" then 0 else if s = "Good" then 1 else if s = "Poor" then 2 else 3

/-- `a.localeCompare(b)` modelled as lexicographic comparison returning
-1 / 0 / 1. -/
def localeCompare (a b : String) : ℚ :=
  if a < b then -1 else if b < a then 1 else 0

/-- The `ramUsed` sort key: `nodeRamData.get(a.pubkey)?.used ?? 0`. -/
def ramUsedKey (ram : RamMap) (n : PNode) : ℚ :=
  match ram n.pubkey with
  | some (u, _) => u
  | none => 0

/-- The `ramUtilization` sort key:
`aRam && aRam.total > 0 ? (aRam.used / aRam.total) * 100 : 0`. -/
def ramUtilizationKey (ram : RamMap) (n : PNode) : ℚ :=
  match ram n.pubkey with
  | some (u, t) => if 0 < t then u / t * 100 else 0
  | none => 0

/-- The comparator body of `result.sort((a, b) => ...)` in `filteredAndSorted`:
the value of `comparison` after the `switch (sortField)`.

The `lastSeen` branch: the code computes `aTime - bTime` from
`new Date(...).getTime()`; an unparsable date gives `NaN`, the subtraction
then gives `NaN`, and ECMAScript `SortCompare` coerces a `NaN` comparator
result to `+0` — so the pair compares as equal.  (The `try/catch` in the
code never fires: `new Date` and `getTime` do not throw.)  The embedding
folds that coercion into the comparator. -/
def comparison (f : SortField) (ram : RamMap) (a b : PNode) : ℚ :=
  match f with
  | .storageUsed => storageUsedKey a - storageUsedKey b
  | .lastSeen =>
      match a.lastSeen, b.lastSeen with
      | some x, some y => (x : ℚ) - (y : ℚ)
      | _, _ => 0
  | .status => statusRank a.status - statusRank b.status
  | .healthScore => healthKey a - healthKey b
  | .storageUtilization => storageUtilizationKey a - storageUtilizationKey b
  | .pubkey => localeCompare a.pubkey b.pubkey
  | .tier => tierRank (a.tier.getD "") - tierRank (b.tier.getD "")
  | .version => localeCompare (a.version.getD "") (b.version.getD "")
  | .region => localeCompare (a.region.getD "") (b.region.getD "")
  | .ramUsed => ramUsedKey ram a - ramUsedKey ram b
  | .ramUtilization => ramUtilizationKey ram a - ramUtilizationKey ram b

/-- The comparator's return value:
`sortDirection === 'asc' ? comparison : -comparison`. -/
def comparisonDir (f : SortField) (d : SortDirection) (ram : RamMap) (a b : PNode) : ℚ :=
  match d with
  | .asc => comparison f ram a b
  | .desc => -(comparison f ram a b)

/-- The boolean "keep `a` before / at `b`" relation induced by the comparator:
a stable sort places `a` no later than `b` exactly when the comparator is ≤ 0. -/
def sortLE (f : SortField) (d : SortDirection) (ram : RamMap) (a b : PNode) : Bool :=
  decide (comparisonDir f d ram a b ≤ 0)

/-- `result.sort((a, b) => ...)`: ES2019+ `Array.prototype.sort` is a stable
sort; modelled as `List.mergeSort` over `sortLE` (see the header comment). -/
def sortJS (f : SortField) (d : SortDirection) (ram : RamMap) (l : List PNode) : List PNode :=
  l.mergeSort (sortLE f d ram)

/-- The deduplication pass of `filteredAndSorted`:
`result.filter` with a `seen : Set<string>` accumulator — keep a record iff
its pubkey has not been seen, recording each kept pubkey. -/
def dedupe : List PNode → List String → List PNode
  | [], _ => []
  | r :: rs, seen =>
      if r.pubkey ∈ seen then dedupe rs seen else r :: dedupe rs (r.pubkey :: seen)

/-- `itemsPerPage = 20`. -/
def itemsPerPage : ℕ := 20

/-- `totalPages = Math.ceil(filteredAndSorted.length / itemsPerPage)`. -/
def totalPages (count n : ℕ) : ℤ :=
  Int.ceil ((count : ℚ) / (n : ℚ))

/-- `paginatedNodes = filteredAndSorted.slice(startIndex, endIndex)` with
`startIndex = (currentPage - 1) * itemsPerPage` and
`endIndex = startIndex + itemsPerPage` (pages are 1-based). -/
def paginatedNodes (l : List PNode) (n p : ℕ) : List PNode :=
  (l.drop ((p - 1) * n)).take n

/-- Does the list `sub` occur as a prefix of `s` (on character lists)? -/
def listStartsWith : List Char → List Char → Bool
  | _, [] => true
  | [], _ :: _ => false
  | c :: cs, d :: ds => c = d && listStartsWith cs ds

/-- Does `sub` occur as a contiguous sublist of `s`? -/
def listContainsSub : List Char → List Char → Bool
  | [], sub => listStartsWith [] sub
  | c :: cs, sub => listStartsWith (c :: cs) sub || listContainsSub cs sub

/-- `s.includes(sub)`: substring containment on strings. -/
def strIncludes (s sub : String) : Bool :=
  listContainsSub s.data sub.data

/-- The search predicate of `filteredAndSorted`: each of
pubkey / region / version / ip is defaulted to `''`, lower-cased, and tested
for containment of the trimmed, lower-cased query; a record matches if ANY
field contains it. -/
def searchMatches (search : String) (node : PNode) : Bool :=
  let searchLower := search.toLower.trim
  strIncludes node.pubkey.toLower searchLower ||
  strIncludes ((node.region.getD "").toLower) searchLower ||
  strIncludes ((node.version.getD "").toLower) searchLower ||
  strIncludes ((node.ip.getD "").toLower) searchLower

/-!
Mutable-array model for the frame claim.

JavaScript array objects are modelled by a heap of array contents indexed by
allocation order; `[...xs]` allocates a fresh array with the same contents,
`Array.prototype.filter` allocates a fresh array, and
`Array.prototype.sort` writes the sorted contents back in place into the
array it is called on.
-/

/-- A heap of array objects: `arrs[r]` is the contents of the array object
with reference `r` (references are allocation indices). -/
structure Heap where
  arrs : List (List PNode)

/-- Read the contents of array object `r`. -/
def Heap.read (h : Heap) (r : ℕ) : List PNode :=
  h.arrs.getD r []

/-- Allocate a fresh array object with contents `v`; returns the new heap
and the new reference. -/
def Heap.alloc (h : Heap) (v : List PNode) : Heap × ℕ :=
  (⟨h.arrs ++ [v]⟩, h.arrs.length)

/-- Overwrite the contents of array object `r` in place. -/
def Heap.write (h : Heap) (r : ℕ) (v : List PNode) : Heap :=
  ⟨h.arrs.set r v⟩

/-- One optional filter stage: when `active`, `result = result.filter(p)`
allocates a fresh array and rebinds the local variable to it; otherwise the
local variable keeps pointing at the same array. -/
def filterStep (h : Heap) (r : ℕ) (active : Bool) (p : PNode → Bool) : Heap × ℕ :=
  if active then h.alloc ((h.read r).filter p) else (h, r)

/-- The `filteredAndSorted` computation of `PNodesTable`, with the array
objects made explicit (`pnodesRef` is the caller's `pnodes` prop):

* `let result = [...pnodes]` — copy into a fresh array;
* the three optional filters (`search`, `statusFilter`, `tierFilter`),
  each producing a fresh array when active (`none` models `'all'`);
* `result.sort(...)` — in-place sort of whatever array `result` points at;
* the final dedupe `result.filter(...)` — a fresh array.

Returns the final heap together with the value of the deduplicated result. -/
def filteredAndSortedRun (h0 : Heap) (pnodesRef : ℕ) (search : String)
    (statusFilter : Option Status) (tierFilter : Option String)
    (f : SortField) (d : SortDirection) : Heap × List PNode :=
  let ram := buildRamMap (h0.read pnodesRef)
  let s1 := h0.alloc (h0.read pnodesRef)
  let s2 := filterStep s1.1 s1.2 (search.trim ≠ "") (searchMatches search)
  let s3 := filterStep s2.1 s2.2 (statusFilter ≠ none)
    (fun node => match statusFilter with
      | some st => decide (node.status = st)
      | none => true)
  let s4 := filterStep s3.1 s3.2 (tierFilter ≠ none)
    (fun node => match tierFilter with
      | some t => decide (node.tier = some t)
      | none => true)
  let h5 := s4.1.write s4.2 (sortJS f d ram (s4.1.read s4.2))
  let s6 := h5.alloc (dedupe (h5.read s4.2) [])
  (s6.1, s6.1.read s6.2)

/-- `Number.prototype.toFixed(1)`, for the exact rationals arising here:
round to one decimal place and print with one digit after the point. -/
def toFixed1 (q : ℚ) : String :=
  let n : ℤ := round (q * 10)
  let m : ℕ := n.natAbs
  (if n < 0 then "-" else "") ++ toString (m / 10) ++ "." ++ toString (m % 10)

/-- The Health Score table cell of `PNodesTable`:
`node.healthScore ? node.healthScore.toFixed(1) : 'N/A'`.
JavaScript truthiness makes a present score of `0` take the `'N/A'` branch. -/
def healthScoreDisplay (h : Option ℚ) : String :=
  match h with
  | some v => if v = 0 then "N/A" else toFixed1 v
  | none => "N/A"

/-- A map node (`MapNode` from `lib/api`), with `lastSeen` parsed
(`none` = unparsable date, i.e. `getTime()` is `NaN`). -/
structure MapNode where
  pubkey : String
  lat : ℚ
  lng : ℚ
  country : String
  region : String
  status : Status
  healthScore : ℚ
  uptime24h : ℚ
  storageUtilization : ℚ
  version : String
  lastSeen : Option ℤ
deriving DecidableEq

/-- The "recent" (pulse) flag of `createMarkerIcon` (both in `MapMarker` and
in the clustering map view):
`node.status === 'online' && lastSeenDate.getTime() > Date.now() - 5*60*1000`.
An unparsable date gives `NaN`, and `NaN > x` is false. -/
def isRecent (now : ℤ) (node : MapNode) : Bool :=
  decide (node.status = Status.online) &&
    (match node.lastSeen with
     | some t => decide (now - 5 * 60 * 1000 < t)
     | none => false)

/-- `popup.options.maxWidth || 300` (a `maxWidth` of `0` is falsy). -/
def popupWidthOf (maxWidth : Option ℚ) : ℚ :=
  match maxWidth with
  | some w => if w = 0 then 300 else w
  | none => 300

/-- `adjustPopupPosition`: given the map container size `(mapW, mapH)` and
the marker's container point `(px, py)`, pick the popup offset.
`filterArea = { x: mapW - 280, y: 0, width: 280, height: 350 }`,
`legendArea = { x: 0, y: mapH - 250, width: 280, height: 250 }`;
`isNearFilters = px > filterArea.x && py < filterArea.height` (checked first),
`isNearLegend = px < legendArea.width && py > legendArea.y` (checked second). -/
def adjustPopupPosition (mapW mapH px py : ℚ) (maxWidth : Option ℚ) : ℚ × ℚ :=
  if px > mapW - 280 ∧ py < 350 then
    (-(popupWidthOf maxWidth) - 30, -10)
  else if px < 280 ∧ py > mapH - 250 then
    (30, -10)
  else
    (0, -10)

/-! ### Concrete records used in scenarios and witnesses -/

/-- A minimal record with the given pubkey (all optional fields absent,
zero storage, a parsable `lastSeen`). -/
def baseNode (pk : String) : PNode :=
  { pubkey := pk, status := .online, healthScore := none, tier := none,
    storageUsed := 0, storageTotal := 0, storageUtilization := none,
    ramUsed := none, ramTotal := none, version := none, region := none,
    ip := none, lastSeen := some 0 }

/-- Scenario record: id `"abc"`, health score 90. -/
def abc90 : PNode := { baseNode "abc" with healthScore := some 90 }

/-- Scenario record: a third node between the two duplicates. -/
def xyz70 : PNode := { baseNode "xyz" with healthScore := some 70 }

/-- Scenario record: id `"abc"`, health score 50 (the duplicate). -/
def abc50 : PNode := { baseNode "abc" with healthScore := some 50 }

/-! ### Deduplicator lemmas -/

/-- `dedupe` only drops elements: the output is a subsequence of the input. -/
theorem dedupe_sublist (l : List PNode) (seen : List String) : List.Sublist (dedupe l seen) l := by
  induction l generalizing seen with
  | nil => simp [dedupe]
  | cons r rs ih =>
    rw [dedupe]
    split
    · exact (ih seen).cons r
    · exact (ih _).cons₂ r

/-- Every record surviving `dedupe` has a pubkey outside the initial `seen` set. -/
theorem dedupe_not_seen (l : List PNode) (seen : List String) :
    ∀ r ∈ dedupe l seen, r.pubkey ∉ seen := by
  induction l generalizing seen with
  | nil => simp [dedupe]
  | cons a rs ih =>
    rw [dedupe]
    split
    · exact ih seen
    · intro r hr
      rcases List.mem_cons.mp hr with h | h
      · subst h; assumption
      · intro hmem
        exact ih (a.pubkey :: seen) r h (List.mem_cons_of_mem _ hmem)

/-- The pubkeys in the `dedupe` output are pairwise distinct. -/
theorem dedupe_pairwise (l : List PNode) (seen : List String) :
    (dedupe l seen).Pairwise (fun a b => a.pubkey ≠ b.pubkey) := by
  induction l generalizing seen with
  | nil => simp [dedupe]
  | cons a rs ih =>
    rw [dedupe]
    split
    · exact ih seen
    · refine List.Pairwise.cons ?_ (ih _)
      intro b hb hab
      exact dedupe_not_seen rs (a.pubkey :: seen) b hb (hab ▸ List.mem_cons_self _ _)

/-- For a pubkey not already `seen`, the first matching record in the
`dedupe` output is the first matching record of the input. -/
theorem dedupe_find? (l : List PNode) (seen : List String) (p : String)
    (hp : p ∉ seen) :
    (dedupe l seen).find? (fun r => r.pubkey == p) = l.find? (fun r => r.pubkey == p) := by
  induction l generalizing seen with
  | nil => simp [dedupe]
  | cons a rs ih =>
    rw [dedupe]
    by_cases hpk : a.pubkey = p
    · subst hpk
      rw [if_neg hp, List.find?_cons_of_pos _ (by simp), List.find?_cons_of_pos _ (by simp)]
    · have hfalse : ¬((fun r => r.pubkey == p) a = true) := by
        simpa using hpk
      have hstep : List.find? (fun r => r.pubkey == p) (a :: rs)
          = List.find? (fun r => r.pubkey == p) rs :=
        List.find?_cons_of_neg rs hfalse
      split
      · rw [hstep]
        exact ih seen hp
      · rw [hstep, List.find?_cons_of_neg (dedupe rs (a.pubkey :: seen)) hfalse]
        refine ih (a.pubkey :: seen) ?_
        intro hmem
        rcases List.mem_cons.mp hmem with h | h
        · exact hpk h.symm
        · exact hp h

/-- C1: `dedupe` keeps exactly the first record for each distinct pubkey in
its input order: the output is a subsequence of the input (hence of
equal-or-lesser length and in input order), contains no two records with
equal pubkey, and for every pubkey the first (= only) record kept is the
first matching record of the input.  Concrete scenario: two records share
id `"abc"`; with the list sorted by `healthScore` descending (the sort
leaves the already-descending list unchanged), `dedupe` keeps the record
that sorts first — the one with health score 90 — and discards the one
with health score 50. -/
theorem dedupe_keeps_first_per_pubkey :
    (∀ l : List PNode, List.Sublist (dedupe l []) l)
    ∧ (∀ l : List PNode, (dedupe l []).length ≤ l.length)
    ∧ (∀ l : List PNode, (dedupe l []).Pairwise (fun a b => a.pubkey ≠ b.pubkey))
    ∧ (∀ (l : List PNode) (p : String),
        (dedupe l []).find? (fun r => r.pubkey == p) = l.find? (fun r => r.pubkey == p))
    ∧ (sortJS .healthScore .desc (buildRamMap [abc90, xyz70, abc50]) [abc90, xyz70, abc50]
          = [abc90, xyz70, abc50]
       ∧ dedupe [abc90, xyz70, abc50] [] = [abc90, xyz70]
       ∧ abc90.pubkey = "abc" ∧ abc50.pubkey = "abc"
       ∧ abc90.healthScore = some 90 ∧ abc50.healthScore = some 50) := by
  refine ⟨fun l => dedupe_sublist l [],
          fun l => (dedupe_sublist l []).length_le,
          fun l => dedupe_pairwise l [],
          fun l p => dedupe_find? l [] p (List.not_mem_nil p),
          ?_, rfl, rfl, rfl, rfl, rfl⟩
  refine List.mergeSort_of_sorted ?_
  simp only [List.pairwise_cons, List.mem_cons, List.mem_singleton, List.not_mem_nil,
    List.Pairwise.nil, and_true]
  norm_num [sortLE, comparisonDir, comparison, healthKey, abc90, xyz70, abc50, baseNode]

/-! ### Claim C6: unparsable `lastSeen` compares as neutral 0 -/

/-- Witness record with an unparsable `lastSeen`. -/
def noDateNode : PNode := { baseNode "nodate" with lastSeen := none }

/-- Witness record with a parsable `lastSeen`. -/
def dateNode : PNode := { baseNode "hasdate" with lastSeen := some 1700000000000 }

/-- The `lastSeen` comparator is 0 whenever either date is unparsable. -/
theorem comparison_lastSeen_none (ram : RamMap) (a b : PNode)
    (h : a.lastSeen = none ∨ b.lastSeen = none) :
    comparison .lastSeen ram a b = 0 := by
  rcases ha : a.lastSeen with _ | x <;> rcases hb : b.lastSeen with _ | y <;>
    simp [comparison, ha, hb] at h ⊢

/-- C6: when either record's `lastSeen` failed to parse, the `lastSeen`
comparator returns the neutral result 0 for either sort direction (the
`NaN` produced by `getTime()` propagates through the subtraction and the
direction flip, and ECMAScript `SortCompare` coerces it to `+0`); in the
total embedding no exception can occur. -/
theorem lastSeen_unparsable_neutral (d : SortDirection) (ram : RamMap) (a b : PNode)
    (h : a.lastSeen = none ∨ b.lastSeen = none) :
    comparisonDir .lastSeen d ram a b = 0 := by
  cases d <;> simp [comparisonDir, comparison_lastSeen_none ram a b h]

/-- Witness for C6 at a concrete pair with an unparsable `lastSeen`. -/
theorem lastSeen_unparsable_neutral_witness :
    noDateNode.lastSeen = none
    ∧ comparisonDir .lastSeen .asc (buildRamMap [noDateNode, dateNode]) noDateNode dateNode = 0 :=
  ⟨rfl, lastSeen_unparsable_neutral .asc (buildRamMap [noDateNode, dateNode]) noDateNode dateNode
      (Or.inl rfl)⟩

/-! ### Claim C8: the "recent" (pulsing) marker flag -/

/-- A concrete online map node whose `lastSeen` is the given timestamp. -/
def mapNodeAt (t : ℤ) : MapNode :=
  { pubkey := "map", lat := 0, lng := 0, country := "US", region := "us-east",
    status := .online, healthScore := 90, uptime24h := 99,
    storageUtilization := 50, version := "1.0", lastSeen := some t }

/-- C8: a map node is flagged "recent" (pulsing) iff it is online and its
`lastSeen` parses to a timestamp strictly within the last 5 minutes
(5 * 60 * 1000 ms) of the evaluation time; concretely an online node last
seen 10 minutes ago is not flagged, and one last seen 2 minutes ago is. -/
theorem recent_flag_iff :
    (∀ (now : ℤ) (node : MapNode),
        isRecent now node = true ↔
          node.status = Status.online
            ∧ ∃ t, node.lastSeen = some t ∧ now - 5 * 60 * 1000 < t)
    ∧ (∀ now : ℤ, isRecent now (mapNodeAt (now - 10 * 60 * 1000)) = false)
    ∧ (∀ now : ℤ, isRecent now (mapNodeAt (now - 2 * 60 * 1000)) = true) := by
  refine ⟨fun now node => ?_, fun now => ?_, fun now => ?_⟩
  · rcases hl : node.lastSeen with _ | t <;> simp [isRecent, hl]
  · simp [isRecent, mapNodeAt]
  · simp [isRecent, mapNodeAt]

/-! ### Claim C9: popup placement around the fixed overlays -/

/-- C9 counterexample: on a small viewport (400 × 500) the point (200, 300)
lies inside the bottom-left legend rectangle (x < 280 and y > mapH - 250),
yet — because it also lies inside the top-right filter rectangle, which the
code checks first — it receives the left offset, not the right offset the
claim assigns to legend-rectangle points. -/
theorem overlay_legend_region_cex :
    ((200 : ℚ) < 280 ∧ (300 : ℚ) > 500 - 250)
    ∧ adjustPopupPosition 400 500 200 300 none = (-330, -10)
    ∧ adjustPopupPosition 400 500 200 300 none ≠ (30, -10) := by
  refine ⟨⟨by norm_num, by norm_num⟩, ?_, ?_⟩ <;>
    norm_num [adjustPopupPosition, popupWidthOf]

/-- C9 (amended): the placement decision is piecewise with the filter-panel
check taking priority: a point inside the top-right filter rectangle gets
the left offset; a point inside the bottom-left legend rectangle but NOT
inside the filter rectangle gets the right offset; every other point gets
the default above-point offset. -/
theorem overlay_placement_piecewise (mapW mapH px py : ℚ) (mw : Option ℚ) :
    (px > mapW - 280 ∧ py < 350 →
        adjustPopupPosition mapW mapH px py mw = (-(popupWidthOf mw) - 30, -10))
    ∧ (¬(px > mapW - 280 ∧ py < 350) → px < 280 ∧ py > mapH - 250 →
        adjustPopupPosition mapW mapH px py mw = (30, -10))
    ∧ (¬(px > mapW - 280 ∧ py < 350) → ¬(px < 280 ∧ py > mapH - 250) →
        adjustPopupPosition mapW mapH px py mw = (0, -10)) := by
  refine ⟨fun h => ?_, fun h1 h2 => ?_, fun h1 h2 => ?_⟩
  · rw [adjustPopupPosition, if_pos h]
  · rw [adjustPopupPosition, if_neg h1, if_pos h2]
  · rw [adjustPopupPosition, if_neg h1, if_neg h2]

/-- Witness for C9 (amended) at three concrete points of a 1000 × 800
viewport: one in the filter rectangle, one in the legend rectangle only,
one in neither. -/
theorem overlay_placement_piecewise_witness :
    adjustPopupPosition 1000 800 900 100 none = (-330, -10)
    ∧ adjustPopupPosition 1000 800 100 700 none = (30, -10)
    ∧ adjustPopupPosition 1000 800 500 400 none = (0, -10) := by
  refine ⟨?_, ?_, ?_⟩
  · have h := (overlay_placement_piecewise 1000 800 900 100 none).1 (by norm_num)
    rw [h]
    norm_num [popupWidthOf]
  · exact (overlay_placement_piecewise 1000 800 100 700 none).2.1 (by norm_num) (by norm_num)
  · exact (overlay_placement_piecewise 1000 800 500 400 none).2.2 (by norm_num) (by norm_num)

/-! ### Claim C5: the storage sort keys -/

/-- Counterexample record for C5: `storageTotal = 0` but an explicit
`storageUtilization` of 50. -/
def utilNode : PNode :=
  { baseNode "util" with storageTotal := 0, storageUtilization := some 50 }

/-- A record whose `storageUtilization` key is 0 (total 0, no explicit field). -/
def plainZeroNode : PNode := baseNode "zero"

/-- C5 counterexample: a record with `storageTotal = 0` does NOT always sort
as utilization 0 under the `storageUtilization` field — when the explicit
`storageUtilization` field is present, that value (here 50) is used as the
sort key regardless of `storageTotal`, so the record compares as 50 against
a utilization-0 record. -/
theorem storageUtilization_explicit_field_cex :
    utilNode.storageTotal = 0
    ∧ storageUtilizationKey utilNode = 50
    ∧ comparison .storageUtilization
        (buildRamMap [utilNode, plainZeroNode]) utilNode plainZeroNode = 50
    ∧ (50 : ℚ) ≠ 0 := by
  refine ⟨rfl, rfl, ?_, by norm_num⟩
  norm_num [comparison, storageUtilizationKey, utilNode, plainZeroNode, baseNode]

/-- C5 (amended): sorting by `storageUsed` always uses the utilization ratio
`storageUsed / storageTotal`, with key 0 whenever `storageTotal` is not
positive (so no division by zero can occur); sorting by
`storageUtilization` uses key 0 for a `storageTotal = 0` record only when
the explicit `storageUtilization` field is absent — when present, that
explicit value is the key. -/
theorem storage_sort_key_spec (r b : PNode) (ram : RamMap) :
    (0 < r.storageTotal → storageUsedKey r = r.storageUsed / r.storageTotal)
    ∧ (r.storageTotal = 0 → storageUsedKey r = 0)
    ∧ (comparison .storageUsed ram r b = storageUsedKey r - storageUsedKey b)
    ∧ (r.storageTotal = 0 → r.storageUtilization = none → storageUtilizationKey r = 0)
    ∧ (∀ u, r.storageUtilization = some u → storageUtilizationKey r = u) := by
  refine ⟨fun h => ?_, fun h => ?_, rfl, fun h1 h2 => ?_, fun u h => ?_⟩
  · rw [storageUsedKey, if_pos h]
  · rw [storageUsedKey, if_neg (by rw [h]; exact lt_irrefl 0)]
  · rw [storageUtilizationKey, h2]
    simp [h1]
  · rw [storageUtilizationKey, h]

/-- Witness for C5 (amended) at concrete records: a half-full node's key is
its ratio, and a `storageTotal = 0` node's keys are 0 / the explicit field. -/
theorem storage_sort_key_spec_witness :
    storageUsedKey { baseNode "half" with storageUsed := 5, storageTotal := 10 }
        = ({ baseNode "half" with storageUsed := 5, storageTotal := 10 } : PNode).storageUsed
          / ({ baseNode "half" with storageUsed := 5, storageTotal := 10 } : PNode).storageTotal
    ∧ storageUsedKey plainZeroNode = 0
    ∧ storageUtilizationKey plainZeroNode = 0
    ∧ storageUtilizationKey utilNode = 50 :=
  ⟨(storage_sort_key_spec _ plainZeroNode (buildRamMap [])).1 (by norm_num [baseNode]),
   (storage_sort_key_spec plainZeroNode plainZeroNode (buildRamMap [])).2.1 rfl,
   (storage_sort_key_spec plainZeroNode plainZeroNode (buildRamMap [])).2.2.2.1 rfl rfl,
   (storage_sort_key_spec utilNode plainZeroNode (buildRamMap [])).2.2.2.2 50 rfl⟩

/-! ### Claim C7: health-score display -/

/-- C7 counterexample: a present health score equal to 0 is displayed as
`"N/A"`, not `"0.0"` — the JavaScript truthiness test
`node.healthScore ? ... : 'N/A'` treats the number 0 as falsy, so the
display does not distinguish a zero score from an absent one. -/
theorem healthScore_zero_display_cex :
    healthScoreDisplay (some 0) = "N/A" ∧ healthScoreDisplay (some 0) ≠ "0.0" := by
  refine ⟨rfl, ?_⟩
  decide

/-- C7 (amended): the display shows `"N/A"` both for an absent health score
and for a present score of 0 (zero is falsy, so the two are NOT
distinguished); a nonzero present score is rendered with one decimal
(e.g. 50 → `"50.0"`, 87.5 → `"87.5"`); and both absent and zero scores are
treated as numeric 0 by the sort key. -/
theorem healthScore_display_spec :
    healthScoreDisplay none = "N/A"
    ∧ healthScoreDisplay (some 0) = "N/A"
    ∧ healthScoreDisplay (some 50) = "50.0"
    ∧ healthScoreDisplay (some 87.5) = "87.5"
    ∧ healthKey { baseNode "h" with healthScore := none } = 0
    ∧ healthKey { baseNode "h" with healthScore := some 0 } = 0 := by
  refine ⟨rfl, rfl, ?_, ?_, rfl, rfl⟩
  · norm_num [healthScoreDisplay, toFixed1]
    decide
  · norm_num [healthScoreDisplay, toFixed1]
    decide

/-! ### Claim C10: the pipeline does not mutate the caller's array -/

/-- Allocation leaves every existing array object unchanged. -/
theorem Heap.read_alloc (h : Heap) (v : List PNode) (s : ℕ)
    (hs : s < h.arrs.length) : (h.alloc v).1.read s = h.read s := by
  simp [Heap.alloc, Heap.read, List.getElem?_append_left hs]

/-- Allocation grows the heap by one array object. -/
theorem Heap.alloc_length (h : Heap) (v : List PNode) :
    (h.alloc v).1.arrs.length = h.arrs.length + 1 := by
  simp [Heap.alloc]

/-- The reference returned by allocation is the old heap size. -/
theorem Heap.alloc_ref (h : Heap) (v : List PNode) : (h.alloc v).2 = h.arrs.length := rfl

/-- An in-place write to one array object leaves every other object unchanged. -/
theorem Heap.read_write_ne (h : Heap) (r : ℕ) (v : List PNode) (s : ℕ)
    (hne : s ≠ r) : (h.write r v).read s = h.read s := by
  simp [Heap.write, Heap.read, List.getElem?_set_ne (Ne.symm hne)]

/-- Writing preserves the heap size. -/
theorem Heap.write_length (h : Heap) (r : ℕ) (v : List PNode) :
    (h.write r v).arrs.length = h.arrs.length := by
  simp [Heap.write]

/-- A filter stage leaves every pre-existing array object unchanged. -/
theorem filterStep_read (h : Heap) (r : ℕ) (active : Bool) (p : PNode → Bool)
    (s : ℕ) (hs : s < h.arrs.length) :
    (filterStep h r active p).1.read s = h.read s := by
  rw [filterStep]
  split
  · exact Heap.read_alloc h _ s hs
  · rfl

/-- A filter stage never shrinks the heap. -/
theorem filterStep_length (h : Heap) (r : ℕ) (active : Bool) (p : PNode → Bool) :
    h.arrs.length ≤ (filterStep h r active p).1.arrs.length := by
  rw [filterStep]
  split
  · rw [Heap.alloc_length]
    omega
  · exact le_refl _

/-- The working reference after a filter stage is either the previous
working reference or a freshly allocated one. -/
theorem filterStep_ref (h : Heap) (r : ℕ) (active : Bool) (p : PNode → Bool) :
    (filterStep h r active p).2 = r ∨ (filterStep h r active p).2 = h.arrs.length := by
  rw [filterStep]
  split
  · exact Or.inr rfl
  · exact Or.inl rfl

/-- C10: the `filteredAndSorted` computation never mutates the caller's
`pnodes` array: after the whole pipeline (copy, filters, in-place sort of
the copy, dedupe) the array object passed in holds exactly the records it
held before.  This rests on `let result = [...pnodes]` allocating a fresh
array before the in-place `result.sort(...)`. -/
theorem filteredAndSorted_preserves_input (h0 : Heap) (ref : ℕ) (search : String)
    (sf : Option Status) (tf : Option String) (f : SortField) (d : SortDirection)
    (href : ref < h0.arrs.length) :
    ((filteredAndSortedRun h0 ref search sf tf f d).1).read ref = h0.read ref := by
  rw [filteredAndSortedRun]
  -- stage 1: the spread copy
  have h1read : (h0.alloc (h0.read ref)).1.read ref = h0.read ref :=
    Heap.read_alloc h0 _ ref href
  have h1len : ref < (h0.alloc (h0.read ref)).1.arrs.length := by
    rw [Heap.alloc_length]
    omega
  have h1ref : h0.arrs.length ≤ (h0.alloc (h0.read ref)).2 := le_of_eq (Heap.alloc_ref h0 _).symm
  -- generic step: any filter stage preserves the caller's array and keeps
  -- the working reference at least as large as the original heap size
  have step : ∀ (h : Heap) (r : ℕ) (active : Bool) (p : PNode → Bool),
      (filterStep h r active p).1.read ref = h.read ref
        ∨ ¬(ref < h.arrs.length) := by
    intro h r active p
    by_cases hlt : ref < h.arrs.length
    · exact Or.inl (filterStep_read h r active p ref hlt)
    · exact Or.inr hlt
  -- thread the invariant through the three filter stages explicitly
  set s1 := h0.alloc (h0.read ref) with hs1
  set s2 := filterStep s1.1 s1.2 (search.trim ≠ "") (searchMatches search) with hs2
  set s3 := filterStep s2.1 s2.2 (sf ≠ none)
    (fun node => match sf with
      | some st => decide (node.status = st)
      | none => true) with hs3
  set s4 := filterStep s3.1 s3.2 (tf ≠ none)
    (fun node => match tf with
      | some t => decide (node.tier = some t)
      | none => true) with hs4
  have h2read : s2.1.read ref = h0.read ref := by
    rw [hs2, filterStep_read s1.1 _ _ _ ref h1len, hs1, h1read]
  have h2len : ref < s2.1.arrs.length :=
    lt_of_lt_of_le h1len (by rw [hs2]; exact filterStep_length _ _ _ _)
  have h1lenle : h0.arrs.length ≤ s1.1.arrs.length := by
    rw [hs1, Heap.alloc_length]
    omega
  have h2ref : h0.arrs.length ≤ s2.2 := by
    rcases filterStep_ref s1.1 s1.2 (search.trim ≠ "") (searchMatches search) with h | h
    · rw [hs2, h]
      exact h1ref
    · rw [hs2, h]
      exact h1lenle
  have h2lenle : h0.arrs.length ≤ s2.1.arrs.length :=
    le_trans h1lenle (by rw [hs2]; exact filterStep_length _ _ _ _)
  have h3read : s3.1.read ref = h0.read ref := by
    rw [hs3, filterStep_read s2.1 _ _ _ ref h2len, h2read]
  have h3len : ref < s3.1.arrs.length :=
    lt_of_lt_of_le h2len (by rw [hs3]; exact filterStep_length _ _ _ _)
  have h3ref : h0.arrs.length ≤ s3.2 := by
    rcases filterStep_ref s2.1 s2.2 _ _ with h | h
    · rw [hs3, h]
      exact h2ref
    · rw [hs3, h]
      exact h2lenle
  have h3lenle : h0.arrs.length ≤ s3.1.arrs.length :=
    le_trans h2lenle (by rw [hs3]; exact filterStep_length _ _ _ _)
  have h4read : s4.1.read ref = h0.read ref := by
    rw [hs4, filterStep_read s3.1 _ _ _ ref h3len, h3read]
  have h4len : ref < s4.1.arrs.length :=
    lt_of_lt_of_le h3len (by rw [hs4]; exact filterStep_length _ _ _ _)
  have h4ref : h0.arrs.length ≤ s4.2 := by
    rcases filterStep_ref s3.1 s3.2 _ _ with h | h
    · rw [hs4, h]
      exact h3ref
    · rw [hs4, h]
      exact h3lenle
  -- the in-place sort writes to the working array, which is distinct from
  -- the caller's array because the working reference is a fresh allocation
  have hne : ref ≠ s4.2 := by omega
  have h5read : (s4.1.write s4.2
      (sortJS f d (buildRamMap (h0.read ref)) (s4.1.read s4.2))).read ref = h0.read ref := by
    rw [Heap.read_write_ne _ _ _ ref hne, h4read]
  have h5len : ref < (s4.1.write s4.2
      (sortJS f d (buildRamMap (h0.read ref)) (s4.1.read s4.2))).arrs.length := by
    rw [Heap.write_length]
    exact h4len
  -- the final dedupe allocates a fresh array
  simp only []
  rw [Heap.read_alloc _ _ ref h5len, h5read]

/-- Witness for C10 at a concrete one-array heap. -/
theorem filteredAndSorted_preserves_input_witness :
    ((filteredAndSortedRun ⟨[[abc90, abc50]]⟩ 0 "" none none .healthScore .desc).1).read 0
      = Heap.read ⟨[[abc90, abc50]]⟩ 0 :=
  filteredAndSorted_preserves_input ⟨[[abc90, abc50]]⟩ 0 "" none none .healthScore .desc
    (by norm_num)

/-! ### Claim C2: the paginator -/

/-- `Math.ceil(count / n)` agrees with the natural-number closed form
`(count + n - 1) / n` for positive `n`. -/
theorem totalPages_eq_natCeil (count n : ℕ) (hn : 0 < n) :
    totalPages count n = ((count + n - 1) / n : ℕ) := by
  have hd := Nat.div_add_mod (count + n - 1) n
  have hr : (count + n - 1) % n < n := Nat.mod_lt _ hn
  have h1 : count ≤ n * ((count + n - 1) / n) := by omega
  have h2 : n * ((count + n - 1) / n) < count + n := by omega
  have hQn : (0 : ℚ) < (n : ℚ) := by exact_mod_cast hn
  set q : ℕ := (count + n - 1) / n with hq
  rw [totalPages, Int.ceil_eq_iff]
  have h1Q : (count : ℚ) ≤ (n : ℚ) * (q : ℚ) := by exact_mod_cast h1
  have h2Q : (n : ℚ) * (q : ℚ) < (count : ℚ) + (n : ℚ) := by exact_mod_cast h2
  constructor
  · rw [lt_div_iff₀ hQn]
    push_cast
    nlinarith
  · rw [div_le_iff₀ hQn]
    push_cast
    nlinarith

/-- The pages cover the collection: concatenating the first `m` page slices
yields the first `m * n` records. -/
theorem pagesFlatten_take (l : List PNode) (n : ℕ) :
    ∀ m : ℕ,
      ((List.range m).map (fun i => paginatedNodes l n (i + 1))).flatten = l.take (m * n) := by
  intro m
  induction m with
  | zero => simp
  | succ m ih =>
    rw [List.range_succ, List.map_append, List.flatten_append, ih]
    simp only [List.map_cons, List.map_nil, List.flatten_cons, List.flatten_nil,
      List.append_nil, paginatedNodes, Nat.add_sub_cancel]
    rw [Nat.succ_mul, List.take_add]

/-- C2: every page slice has at most `itemsPerPage = 20` records;
`totalPages` is `Math.ceil(count / 20)` (equal to the natural closed form
`(count + 19) / 20`, hence 0 for an empty collection, and characterized by
the usual ceiling inequalities for nonempty ones); the concatenation of the
slices for pages 1..totalPages is exactly the full collection, with no gaps
or repeats; and 25 records at page size 20 give 2 pages of 20 and 5 records. -/
theorem paginator_spec :
    (∀ (l : List PNode) (p : ℕ), (paginatedNodes l itemsPerPage p).length ≤ itemsPerPage)
    ∧ totalPages 0 itemsPerPage = 0
    ∧ (∀ count : ℕ, totalPages count itemsPerPage = ((count + 19) / 20 : ℕ))
    ∧ (∀ count : ℕ, 0 < count →
        itemsPerPage * ((totalPages count itemsPerPage).toNat - 1) < count
          ∧ count ≤ itemsPerPage * (totalPages count itemsPerPage).toNat)
    ∧ (∀ l : List PNode,
        ((List.range (totalPages l.length itemsPerPage).toNat).map
            (fun i => paginatedNodes l itemsPerPage (i + 1))).flatten = l)
    ∧ (∀ l : List PNode, l.length = 25 → l.Pairwise (fun a b => a.pubkey ≠ b.pubkey) →
        totalPages l.length itemsPerPage = 2
          ∧ (paginatedNodes l itemsPerPage 1).length = 20
          ∧ (paginatedNodes l itemsPerPage 2).length = 5) := by
  have hceil : ∀ count : ℕ, totalPages count itemsPerPage = ((count + 19) / 20 : ℕ) :=
    fun count => totalPages_eq_natCeil count itemsPerPage (by norm_num [itemsPerPage])
  refine ⟨fun l p => ?_, ?_, hceil, fun count hc => ?_, fun l => ?_, fun l hlen _ => ?_⟩
  · rw [paginatedNodes]
    exact le_trans (List.length_take_le _ _) (le_refl _)
  · rw [totalPages]
    norm_num
  · have h := hceil count
    have hd := Nat.div_add_mod (count + 19) 20
    have hr : (count + 19) % 20 < 20 := Nat.mod_lt _ (by norm_num)
    rw [h]
    rw [Int.toNat_natCast]
    constructor <;> [skip; skip] <;> simp only [itemsPerPage] <;> omega
  · rw [pagesFlatten_take]
    refine List.take_of_length_le ?_
    have h := hceil l.length
    rw [h, Int.toNat_natCast]
    have hd := Nat.div_add_mod (l.length + 19) 20
    have hr : (l.length + 19) % 20 < 20 := Nat.mod_lt _ (by norm_num)
    simp only [itemsPerPage]
    omega
  · refine ⟨by rw [hlen, hceil]; norm_num, ?_, ?_⟩ <;>
      simp [paginatedNodes, itemsPerPage, List.length_take, List.length_drop, hlen]

/-- 25 records with pairwise-distinct pubkeys. -/
def nodes25 : List PNode := (List.range 25).map (fun i => baseNode (toString i))

/-- Witness for C2 at the concrete 25-record collection: 2 pages, of 20 and
5 records, and the nonempty-count ceiling bound. -/
theorem paginator_spec_witness :
    (totalPages nodes25.length itemsPerPage = 2
      ∧ (paginatedNodes nodes25 itemsPerPage 1).length = 20
      ∧ (paginatedNodes nodes25 itemsPerPage 2).length = 5)
    ∧ (itemsPerPage * ((totalPages 25 itemsPerPage).toNat - 1) < 25
      ∧ 25 ≤ itemsPerPage * (totalPages 25 itemsPerPage).toNat) :=
  ⟨paginator_spec.2.2.2.2.2 nodes25 (by decide) (by decide),
   paginator_spec.2.2.2.1 25 (by norm_num)⟩

/-! ### Comparator algebra -/

/-- `localeCompare` is antisymmetric: swapping the arguments negates it. -/
theorem localeCompare_antisymm (s t : String) : localeCompare t s = -(localeCompare s t) := by
  rcases lt_trichotomy s t with h | h | h
  · rw [localeCompare, if_neg (asymm h), if_pos h, localeCompare, if_pos h]
    norm_num
  · subst h
    simp [localeCompare]
  · rw [localeCompare, if_pos h, localeCompare, if_neg (asymm h), if_pos h]

/-- `localeCompare s t ≤ 0` exactly when `s ≤ t` in the underlying order. -/
theorem localeCompare_nonpos (s t : String) : localeCompare s t ≤ 0 ↔ s ≤ t := by
  rcases lt_trichotomy s t with h | h | h
  · rw [localeCompare, if_pos h]
    simp [le_of_lt h]
  · subst h
    simp [localeCompare]
  · rw [localeCompare, if_neg (asymm h), if_pos h]
    simp [not_le_of_gt h]

/-- `localeCompare` vanishes on equal strings. -/
theorem localeCompare_self (s : String) : localeCompare s s = 0 := by
  simp [localeCompare]

/-- Every field comparator vanishes on a record compared with itself. -/
theorem comparison_self (f : SortField) (ram : RamMap) (a : PNode) :
    comparison f ram a a = 0 := by
  cases f
  case lastSeen => rcases h : a.lastSeen with _ | x <;> simp [comparison, h]
  all_goals simp [comparison, localeCompare_self]

/-- Every field comparator is antisymmetric: swapping the records negates it. -/
theorem comparison_antisymm (f : SortField) (ram : RamMap) (a b : PNode) :
    comparison f ram b a = -(comparison f ram a b) := by
  cases f
  case lastSeen =>
    rcases ha : a.lastSeen with _ | x <;> rcases hb : b.lastSeen with _ | y <;>
      simp [comparison, ha, hb] <;> ring
  case pubkey =>
    simp only [comparison]
    rw [localeCompare_antisymm]
  case version =>
    simp only [comparison]
    rw [localeCompare_antisymm]
  case region =>
    simp only [comparison]
    rw [localeCompare_antisymm]
  all_goals
    simp only [comparison]
    ring

/-- The direction-adjusted comparator is antisymmetric as well. -/
theorem comparisonDir_antisymm (f : SortField) (d : SortDirection) (ram : RamMap)
    (a b : PNode) :
    comparisonDir f d ram b a = -(comparisonDir f d ram a b) := by
  cases d <;> simp [comparisonDir, comparison_antisymm f ram a b]

/-- The induced boolean relation is total. -/
theorem sortLE_total (f : SortField) (d : SortDirection) (ram : RamMap) (a b : PNode) :
    sortLE f d ram a b || sortLE f d ram b a := by
  simp only [sortLE, Bool.or_eq_true, decide_eq_true_eq]
  rcases le_total (comparisonDir f d ram a b) 0 with h | h
  · exact Or.inl h
  · refine Or.inr ?_
    rw [comparisonDir_antisymm]
    linarith

/-- For every field except `lastSeen`, the comparator is transitive in the
"≤ 0" sense (each such comparator is a key difference or a `localeCompare`
of keys).  The `lastSeen` comparator is NOT transitive when unparsable and
parsable dates are mixed, which is exactly what claims C3/C4 turn on. -/
theorem comparison_trans_of_ne (f : SortField) (hf : f ≠ SortField.lastSeen)
    (ram : RamMap) (a b c : PNode) :
    comparison f ram a b ≤ 0 → comparison f ram b c ≤ 0 → comparison f ram a c ≤ 0 := by
  cases f
  case lastSeen => exact absurd rfl hf
  case pubkey =>
    simp only [comparison, localeCompare_nonpos]
    exact le_trans
  case version =>
    simp only [comparison, localeCompare_nonpos]
    exact le_trans
  case region =>
    simp only [comparison, localeCompare_nonpos]
    exact le_trans
  all_goals
    simp only [comparison]
    intro h1 h2
    linarith

/-- The induced boolean relation is transitive for every field except
`lastSeen`, in either direction. -/
theorem sortLE_trans_of_ne (f : SortField) (hf : f ≠ SortField.lastSeen)
    (d : SortDirection) (ram : RamMap) :
    ∀ a b c : PNode, sortLE f d ram a b → sortLE f d ram b c → sortLE f d ram a c := by
  intro a b c h1 h2
  simp only [sortLE, decide_eq_true_eq] at h1 h2 ⊢
  cases d
  case asc =>
    simp only [comparisonDir] at h1 h2 ⊢
    exact comparison_trans_of_ne f hf ram a b c h1 h2
  case desc =>
    simp only [comparisonDir] at h1 h2 ⊢
    have h1' : comparison f ram b a ≤ 0 := by
      rw [comparison_antisymm]
      linarith
    have h2' : comparison f ram c b ≤ 0 := by
      rw [comparison_antisymm]
      linarith
    have h := comparison_trans_of_ne f hf ram c b a h2' h1'
    rw [comparison_antisymm] at h
    linarith

/-! ### Sortedness of the modelled sort

For every field except `lastSeen` the boolean relation is transitive and
total globally.  For `lastSeen` it is transitive only on records whose
dates all parse, so those lists are handled through the subtype of
parsable-date records.
-/

/-- Records whose `lastSeen` parses. -/
def TimedNode : Type := { p : PNode // p.lastSeen.isSome }

/-- The sort relation restricted to parsable-date records. -/
def sortLET (d : SortDirection) (ram : RamMap) (a b : TimedNode) : Bool :=
  sortLE .lastSeen d ram a.1 b.1

/-- The `lastSeen` comparator on two parsable records is the timestamp
difference. -/
theorem comparison_lastSeen_eq (ram : RamMap) (a b : PNode) (x y : ℤ)
    (ha : a.lastSeen = some x) (hb : b.lastSeen = some y) :
    comparison .lastSeen ram a b = (x : ℚ) - (y : ℚ) := by
  simp [comparison, ha, hb]

/-- On parsable-date records the sort relation is transitive. -/
theorem sortLET_trans (d : SortDirection) (ram : RamMap) :
    ∀ a b c : TimedNode, sortLET d ram a b → sortLET d ram b c → sortLET d ram a c := by
  rintro ⟨a, ha⟩ ⟨b, hb⟩ ⟨c, hc⟩ h1 h2
  obtain ⟨x, hx⟩ := Option.isSome_iff_exists.mp ha
  obtain ⟨y, hy⟩ := Option.isSome_iff_exists.mp hb
  obtain ⟨z, hz⟩ := Option.isSome_iff_exists.mp hc
  simp only [sortLET, sortLE, decide_eq_true_eq] at h1 h2 ⊢
  cases d <;>
    simp only [comparisonDir, comparison_lastSeen_eq ram a b x y hx hy,
      comparison_lastSeen_eq ram b c y z hy hz,
      comparison_lastSeen_eq ram a c x z hx hz] at h1 h2 ⊢ <;>
    linarith

/-- On parsable-date records the sort relation is total. -/
theorem sortLET_total (d : SortDirection) (ram : RamMap) (a b : TimedNode) :
    sortLET d ram a b || sortLET d ram b a :=
  sortLE_total .lastSeen d ram a.1 b.1

/-- Attach parsability proofs to the records of an all-parsable list. -/
def attachTimed (l : List PNode) (h : ∀ r ∈ l, r.lastSeen.isSome) : List TimedNode :=
  l.attach.map (fun x => ⟨x.1, h x.1 x.2⟩)

/-- Forgetting the parsability proofs gives back the original list. -/
theorem attachTimed_map_val (l : List PNode) (h : ∀ r ∈ l, r.lastSeen.isSome) :
    (attachTimed l h).map Subtype.val = l := by
  rw [attachTimed, List.map_map]
  have h1 : (Subtype.val ∘ fun x : { x // x ∈ l } => (⟨x.1, h x.1 x.2⟩ : TimedNode))
      = fun x : { x // x ∈ l } => x.1 := rfl
  rw [h1]
  simpa using List.attach_map_val l (fun x => x)

/-- Sorting an all-parsable list is the image of sorting its attached copy. -/
theorem sortJS_lastSeen_map (d : SortDirection) (ram : RamMap) (l : List PNode)
    (h : ∀ r ∈ l, r.lastSeen.isSome) :
    ((attachTimed l h).mergeSort (sortLET d ram)).map Subtype.val
      = sortJS .lastSeen d ram l := by
  rw [sortJS]
  conv_rhs => rw [← attachTimed_map_val l h]
  exact List.map_mergeSort (fun a _ b _ => rfl)

/-- The modelled sort output is pairwise "comparator ≤ 0"-ordered, for every
field other than `lastSeen`, and for `lastSeen` whenever every record's
date parses. -/
theorem sortJS_pairwise (f : SortField) (d : SortDirection) (ram : RamMap)
    (l : List PNode)
    (hls : f = SortField.lastSeen → ∀ r ∈ l, r.lastSeen.isSome) :
    (sortJS f d ram l).Pairwise (fun a b => comparisonDir f d ram a b ≤ 0) := by
  by_cases hf : f = SortField.lastSeen
  · subst hf
    have hall := hls rfl
    have hsorted := List.sorted_mergeSort
      (sortLET_trans d ram) (sortLET_total d ram) (attachTimed l hall)
    have hmap := sortJS_lastSeen_map d ram l hall
    rw [← hmap, List.pairwise_map]
    refine hsorted.imp ?_
    intro a b hab
    simpa [sortLET, sortLE] using hab
  · have hsorted := List.sorted_mergeSort
      (sortLE_trans_of_ne f hf d ram) (sortLE_total f d ram) l
    refine hsorted.imp ?_
    intro a b hab
    simpa [sortLE] using hab

/-- The modelled sort permutes its input. -/
theorem sortJS_perm (f : SortField) (d : SortDirection) (ram : RamMap) (l : List PNode) :
    (sortJS f d ram l).Perm l :=
  List.mergeSort_perm l (sortLE f d ram)

/-! ### Generic list helpers for order uniqueness and stability -/

/-- Evaluation of `mergeSort` on a two-element list. -/
theorem mergeSort_two {α : Type} (le : α → α → Bool) (a b : α) :
    List.mergeSort [a, b] le = if le a b then [a, b] else [b, a] := by
  unfold List.mergeSort
  simp only [List.splitInTwo_fst, List.splitInTwo_snd, List.take_succ_cons, List.take_zero,
    List.drop_succ_cons, List.drop_zero]
  norm_num
  rw [List.cons_merge_cons]
  split <;> simp [List.merge]

/-- Evaluation of `mergeSort` on a three-element list: split into the first
two elements and the last one, sort, merge. -/
theorem mergeSort_three {α : Type} (le : α → α → Bool) (a b c : α) :
    List.mergeSort [a, b, c] le = List.merge (List.mergeSort [a, b] le) [c] le := by
  conv_lhs => unfold List.mergeSort
  norm_num [List.splitInTwo_fst, List.splitInTwo_snd]

/-- Evaluation of `mergeSort` on a four-element list: split in halves,
sort, merge. -/
theorem mergeSort_four {α : Type} (le : α → α → Bool) (a b c d : α) :
    List.mergeSort [a, b, c, d] le
      = List.merge (List.mergeSort [a, b] le) (List.mergeSort [c, d] le) le := by
  conv_lhs => unfold List.mergeSort
  norm_num [List.splitInTwo_fst, List.splitInTwo_snd]

/-- Two members of a list occur in one order or the other. -/
theorem pair_sublist_or {α : Type} :
    ∀ (l : List α) (x y : α), x ∈ l → y ∈ l → x ≠ y →
      List.Sublist [x, y] l ∨ List.Sublist [y, x] l := by
  intro l
  induction l with
  | nil => intro x y hx _ _; exact absurd hx (List.not_mem_nil x)
  | cons a t ih =>
    intro x y hx hy hne
    by_cases hxa : x = a
    · subst hxa
      have hyt : y ∈ t := by
        rcases List.mem_cons.mp hy with h | h
        · exact absurd h.symm hne
        · exact h
      exact Or.inl ((List.singleton_sublist.mpr hyt).cons₂ x)
    · by_cases hya : y = a
      · subst hya
        have hxt : x ∈ t := by
          rcases List.mem_cons.mp hx with h | h
          · exact absurd h hxa
          · exact h
        exact Or.inr ((List.singleton_sublist.mpr hxt).cons₂ y)
      · have hxt : x ∈ t := by
          rcases List.mem_cons.mp hx with h | h
          · exact absurd h hxa
          · exact h
        have hyt : y ∈ t := by
          rcases List.mem_cons.mp hy with h | h
          · exact absurd h hya
          · exact h
        rcases ih x y hxt hyt hne with h | h
        · exact Or.inl (h.cons a)
        · exact Or.inr (h.cons a)

/-- Two permuted lists that are both pairwise ordered by `R`, where `R` is
antisymmetric on the elements involved, are equal: a sorted permutation is
unique up to the ordering of `R`-equivalent elements, and here there are
none. -/
theorem eq_of_perm_of_pairwise {α : Type} {R : α → α → Prop} :
    ∀ {l₁ l₂ : List α}, l₁.Perm l₂ → l₁.Pairwise R → l₂.Pairwise R →
      (∀ a ∈ l₁, ∀ b ∈ l₁, R a b → R b a → a = b) → l₁ = l₂ := by
  intro l₁
  induction l₁ with
  | nil => intro l₂ hperm _ _ _; exact (List.Perm.nil_eq hperm).symm ▸ rfl
  | cons a t ih =>
    intro l₂ hperm h1 h2 hanti
    rcases l₂ with _ | ⟨b, u⟩
    · exact absurd hperm.symm (by simp)
    · have hab : a = b := by
        by_contra hne
        have hamem : a ∈ b :: u := hperm.mem_iff.mp (List.mem_cons_self a t)
        have hau : a ∈ u := by
          rcases List.mem_cons.mp hamem with h | h
          · exact absurd h hne
          · exact h
        have hbmem : b ∈ a :: t := hperm.mem_iff.mpr (List.mem_cons_self b u)
        have hbt : b ∈ t := by
          rcases List.mem_cons.mp hbmem with h | h
          · exact absurd h.symm hne
          · exact h
        have hRab : R a b := List.rel_of_pairwise_cons h1 hbt
        have hRba : R b a := List.rel_of_pairwise_cons h2 hau
        exact hne (hanti a (List.mem_cons_self a t) b (List.mem_cons.mpr (Or.inr hbt)) hRab hRba)
      subst hab
      have htu : t.Perm u := hperm.cons_inv
      have ht : t.Pairwise R := List.Pairwise.sublist (List.sublist_cons_self a t) h1
      have hu : u.Pairwise R := List.Pairwise.sublist (List.sublist_cons_self a u) h2
      have hanti' : ∀ x ∈ t, ∀ y ∈ t, R x y → R y x → x = y := fun x hx y hy =>
        hanti x (List.mem_cons_of_mem a hx) y (List.mem_cons_of_mem a hy)
      rw [ih htu ht hu hanti']

/-- A pair that occurs in one of two permuted `R`-sorted lists, and is not
`R`-equivalent, occurs in the same order in the other list. -/
theorem pair_sublist_transfer {α : Type} {R : α → α → Prop} {L1 L2 : List α} {a b : α}
    (hperm : L1.Perm L2) (h1 : L1.Pairwise R) (h2 : L2.Pairwise R)
    (hne : a ≠ b) (hnr : ¬(R a b ∧ R b a))
    (hab : List.Sublist [a, b] L1) : List.Sublist [a, b] L2 := by
  have ha : a ∈ L2 := hperm.mem_iff.mp (hab.subset (by simp))
  have hb : b ∈ L2 := hperm.mem_iff.mp (hab.subset (by simp))
  rcases pair_sublist_or L2 a b ha hb hne with h | h
  · exact h
  · exfalso
    have hba : R b a := List.pairwise_pair.mp (List.Pairwise.sublist h h2)
    have hab' : R a b := List.pairwise_pair.mp (List.Pairwise.sublist hab h1)
    exact hnr ⟨hab', hba⟩

/-- Sorting the empty list. -/
theorem sortJS_nil (f : SortField) (d : SortDirection) (ram : RamMap) :
    sortJS f d ram [] = [] :=
  List.mergeSort_of_sorted (by simp)

/-- Sorting a one-element list. -/
theorem sortJS_single (f : SortField) (d : SortDirection) (ram : RamMap) (a : PNode) :
    sortJS f d ram [a] = [a] :=
  List.mergeSort_of_sorted (by simp)

/-- If the `lastSeen` comparator has no ties on a list of at least two
records, then every record's date parses (an unparsable date ties with
everything). -/
theorem noties_lastSeen_parsable (ram : RamMap) (x y : PNode) (t : List PNode)
    (hnt : (x :: y :: t).Pairwise (fun a b => comparison .lastSeen ram a b ≠ 0)) :
    ∀ r ∈ x :: y :: t, r.lastSeen.isSome := by
  intro r hr
  by_contra hns
  have hnone : r.lastSeen = none := Option.not_isSome_iff_eq_none.mp hns
  rcases List.mem_cons.mp hr with h | h
  · subst h
    have hxy : comparison .lastSeen ram r y ≠ 0 :=
      List.rel_of_pairwise_cons hnt (List.mem_cons_self y t)
    exact hxy (comparison_lastSeen_none ram r y (Or.inl hnone))
  · have hxr : comparison .lastSeen ram x r ≠ 0 := List.rel_of_pairwise_cons hnt h
    exact hxr (comparison_lastSeen_none ram x r (Or.inr hnone))

/-- The "comparator ceils to a tie" relation is symmetric. -/
theorem comparison_ne_symm (f : SortField) (ram : RamMap) :
    Symmetric (fun a b => comparison f ram a b ≠ 0) := by
  intro a b h
  rw [comparison_antisymm]
  simpa using h

/-- C4 (amended): (1) when the comparator yields no ties on the list, the
descending sort is the exact reverse of the ascending sort; (2) whenever
the comparator is consistent on the list (every field except `lastSeen` on
a list mixing parsable and unparsable dates), any non-tied pair occurs in
the same relative order in the descending sort as in the reversed ascending
sort — the two differ at most in the relative order of tied records.  (The
implementation negates the comparator rather than reversing the ascending
result.) -/
theorem sort_desc_reverse_of_asc (f : SortField) (ram : RamMap) (l : List PNode) :
    (l.Pairwise (fun a b => comparison f ram a b ≠ 0) →
        sortJS f .desc ram l = (sortJS f .asc ram l).reverse)
    ∧ ((f = SortField.lastSeen → ∀ r ∈ l, r.lastSeen.isSome) →
        ∀ a b : PNode, comparison f ram a b ≠ 0 →
          (List.Sublist [a, b] (sortJS f .desc ram l)
            ↔ List.Sublist [a, b] ((sortJS f .asc ram l).reverse))) := by
  have harev : ∀ (hls : f = SortField.lastSeen → ∀ r ∈ l, r.lastSeen.isSome),
      ((sortJS f .asc ram l).reverse).Pairwise
        (fun a b => comparisonDir f .desc ram a b ≤ 0) := by
    intro hls
    rw [List.pairwise_reverse]
    refine (sortJS_pairwise f .asc ram l hls).imp ?_
    intro a b hab
    simp only [comparisonDir] at hab ⊢
    rw [comparison_antisymm]
    linarith
  have hpermrev : (sortJS f .desc ram l).Perm ((sortJS f .asc ram l).reverse) :=
    ((sortJS_perm f .desc ram l).trans (sortJS_perm f .asc ram l).symm).trans
      (List.reverse_perm _).symm
  constructor
  · intro hnt
    rcases l with _ | ⟨x, l⟩
    · rw [sortJS_nil, sortJS_nil]
      rfl
    rcases l with _ | ⟨y, t⟩
    · rw [sortJS_single, sortJS_single]
      rfl
    have hls : f = SortField.lastSeen → ∀ r ∈ x :: y :: t, r.lastSeen.isSome := by
      intro hf
      subst hf
      exact noties_lastSeen_parsable ram x y t hnt
    have hD := sortJS_pairwise f .desc ram (x :: y :: t) hls
    refine eq_of_perm_of_pairwise hpermrev hD (harev hls) ?_
    intro u hu v hv h1 h2
    by_contra hne
    have humem : u ∈ x :: y :: t := ((sortJS_perm f .desc ram _).mem_iff).mp hu
    have hvmem : v ∈ x :: y :: t := ((sortJS_perm f .desc ram _).mem_iff).mp hv
    have hnz : comparison f ram u v ≠ 0 :=
      hnt.forall (comparison_ne_symm f ram) humem hvmem hne
    simp only [comparisonDir] at h1 h2
    rw [comparison_antisymm] at h2
    exact hnz (by linarith)
  · intro hls a b hcmp
    have hne : a ≠ b := by
      intro heq
      subst heq
      exact hcmp (comparison_self f ram a)
    have hD := sortJS_pairwise f .desc ram l hls
    have hnr : ¬((fun u v => comparisonDir f .desc ram u v ≤ 0) a b
        ∧ (fun u v => comparisonDir f .desc ram u v ≤ 0) b a) := by
      rintro ⟨h1, h2⟩
      simp only [comparisonDir] at h1 h2
      rw [comparison_antisymm] at h2
      exact hcmp (by linarith)
    constructor
    · intro h
      exact pair_sublist_transfer hpermrev hD (harev hls) hne hnr h
    · intro h
      exact pair_sublist_transfer hpermrev.symm (harev hls) hD hne hnr h

/-- C4 witness record pair (distinct health scores, no ties). -/
def hs80a : PNode := { baseNode "w1" with healthScore := some 80 }

/-- C4/C3 witness record with the same health score as `hs80a`. -/
def hs80b : PNode := { baseNode "w2" with healthScore := some 80 }

/-- Witness for C4 (amended) at a concrete two-record list with no ties
(health scores 50 and 90), and a concrete non-tied pair for the
order-transfer part. -/
theorem sort_desc_reverse_of_asc_witness :
    sortJS .healthScore .desc (buildRamMap [abc50, abc90]) [abc50, abc90]
        = (sortJS .healthScore .asc (buildRamMap [abc50, abc90]) [abc50, abc90]).reverse
    ∧ (List.Sublist [abc90, abc50]
          (sortJS .healthScore .desc (buildRamMap [abc50, abc90]) [abc50, abc90])
        ↔ List.Sublist [abc90, abc50]
          ((sortJS .healthScore .asc (buildRamMap [abc50, abc90]) [abc50, abc90]).reverse)) :=
  ⟨(sort_desc_reverse_of_asc .healthScore (buildRamMap [abc50, abc90]) [abc50, abc90]).1
      (by norm_num [List.pairwise_cons, comparison, healthKey, abc50, abc90, baseNode]),
   (sort_desc_reverse_of_asc .healthScore (buildRamMap [abc50, abc90]) [abc50, abc90]).2
      (by intro h; simp at h)
      abc90 abc50
      (by norm_num [comparison, healthKey, abc50, abc90, baseNode])⟩

/-! ### The `lastSeen` inconsistency counterexamples (C3 and C4) -/

/-- Counterexample record: unparsable date. -/
def ls0 : PNode := { baseNode "ls-a" with lastSeen := none }

/-- Counterexample record: timestamp 0. -/
def ls1 : PNode := { baseNode "ls-b" with lastSeen := some 0 }

/-- Counterexample record: unparsable date. -/
def ls2 : PNode := { baseNode "ls-c" with lastSeen := none }

/-- Counterexample record: timestamp 1. -/
def ls3 : PNode := { baseNode "ls-d" with lastSeen := some 1 }

/-- The RAM map of the C4 counterexample list. -/
def ram4 : RamMap := buildRamMap [ls0, ls1, ls2, ls3]

/-- The ascending `lastSeen` sort leaves `[ls0, ls1, ls2, ls3]` unchanged
(it is already pairwise ≤ under the neutral-0 comparator). -/
theorem sortJS_asc_ls : sortJS .lastSeen .asc ram4 [ls0, ls1, ls2, ls3]
    = [ls0, ls1, ls2, ls3] := by
  refine List.mergeSort_of_sorted ?_
  simp only [List.pairwise_cons, List.mem_cons, List.mem_singleton, List.not_mem_nil]
  norm_num [sortLE, comparisonDir, comparison, ls0, ls1, ls2, ls3, baseNode]

/-- The descending `lastSeen` sort ALSO leaves `[ls0, ls1, ls2, ls3]`
unchanged: the merge sort never compares `ls1` with `ls3` directly, and all
the comparisons it does make are neutral ties. -/
theorem sortJS_desc_ls : sortJS .lastSeen .desc ram4 [ls0, ls1, ls2, ls3]
    = [ls0, ls1, ls2, ls3] := by
  have h01 : sortLE .lastSeen .desc ram4 ls0 ls1 = true := by
    norm_num [sortLE, comparisonDir, comparison, ls0, ls1, baseNode]
  have h23 : sortLE .lastSeen .desc ram4 ls2 ls3 = true := by
    norm_num [sortLE, comparisonDir, comparison, ls2, ls3, baseNode]
  have h02 : sortLE .lastSeen .desc ram4 ls0 ls2 = true := by
    norm_num [sortLE, comparisonDir, comparison, ls0, ls2, baseNode]
  have h12 : sortLE .lastSeen .desc ram4 ls1 ls2 = true := by
    norm_num [sortLE, comparisonDir, comparison, ls1, ls2, baseNode]
  rw [sortJS, mergeSort_four, mergeSort_two, if_pos h01, mergeSort_two, if_pos h23,
    List.cons_merge_cons, if_pos h02, List.cons_merge_cons, if_pos h12, List.nil_merge]

/-- C4 counterexample: on `[ls0, ls1, ls2, ls3]` (dates: unparsable, 0,
unparsable, 1) sorted by `lastSeen`, ties exist (`ls0`/`ls2` compare as 0),
the records `ls1` and `ls3` are NOT tied (their comparator is -1), yet the
descending sort orders `ls1` before `ls3` while the reversed ascending sort
orders `ls3` before `ls1` — the two results do not differ merely in the
relative order of tied records, and the descending sort is not the reverse
of the ascending one. -/
theorem sort_desc_not_reverse_cex :
    comparison .lastSeen ram4 ls1 ls3 ≠ 0
    ∧ (comparison .lastSeen ram4 ls0 ls2 = 0 ∧ ls0 ≠ ls2)
    ∧ List.Sublist [ls1, ls3] (sortJS .lastSeen .desc ram4 [ls0, ls1, ls2, ls3])
    ∧ ¬ List.Sublist [ls1, ls3] ((sortJS .lastSeen .asc ram4 [ls0, ls1, ls2, ls3]).reverse)
    ∧ sortJS .lastSeen .desc ram4 [ls0, ls1, ls2, ls3]
        ≠ (sortJS .lastSeen .asc ram4 [ls0, ls1, ls2, ls3]).reverse := by
  refine ⟨by norm_num [comparison, ls1, ls3, baseNode],
          ⟨by norm_num [comparison, ls0, ls2, baseNode], by decide⟩, ?_, ?_, ?_⟩
  · rw [sortJS_desc_ls]
    decide
  · rw [sortJS_asc_ls]
    decide
  · rw [sortJS_desc_ls, sortJS_asc_ls]
    decide

/-! ### Claim C3: stability -/

/-- C3 (amended): the sort is stable — a pair of records whose derived keys
compare equal keeps its input order — for every sort field and direction,
provided the comparator is consistent on the list: always for every field
other than `lastSeen`, and for `lastSeen` whenever every record's date
parses.  (With unparsable dates mixed in, the neutral-0 comparator is
inconsistent, ECMAScript leaves the order implementation-defined, and the
modelled merge sort concretely reorders tied pairs — see the
counterexample.) -/
theorem sort_stable (f : SortField) (d : SortDirection) (ram : RamMap) (l : List PNode)
    (a b : PNode)
    (hls : f = SortField.lastSeen → ∀ r ∈ l, r.lastSeen.isSome)
    (hpair : List.Sublist [a, b] l) (heq : comparison f ram a b = 0) :
    List.Sublist [a, b] (sortJS f d ram l) := by
  have hle : sortLE f d ram a b = true := by
    cases d <;> simp [sortLE, comparisonDir, heq]
  by_cases hf : f = SortField.lastSeen
  · subst hf
    have hall := hls rfl
    have hpair' : List.Sublist [a, b] ((attachTimed l hall).map Subtype.val) := by
      rw [attachTimed_map_val]
      exact hpair
    obtain ⟨l₀, hsub, hmap⟩ := List.sublist_map_iff.mp hpair'
    rcases l₀ with _ | ⟨a', l₀⟩
    · simp at hmap
    rcases l₀ with _ | ⟨b', l₀⟩
    · simp at hmap
    rcases l₀ with _ | ⟨c', l₀⟩
    · simp only [List.map_cons, List.map_nil, List.cons.injEq, and_true] at hmap
      obtain ⟨ha', hb'⟩ := hmap
      have hle' : sortLET d ram a' b' = true := by
        rw [ha', hb'] at hle
        exact hle
      have hst := List.pair_sublist_mergeSort (sortLET_trans d ram) (sortLET_total d ram)
        hle' hsub
      have hmapped := List.Sublist.map Subtype.val hst
      rw [sortJS_lastSeen_map d ram l hall] at hmapped
      simpa [← ha', ← hb'] using hmapped
    · simp at hmap
  · exact List.pair_sublist_mergeSort (sortLE_trans_of_ne f hf d ram)
      (sortLE_total f d ram) hle hpair

/-- Witness for C3 (amended): two records with equal health score keep
their input order through a descending health-score sort. -/
theorem sort_stable_witness :
    List.Sublist [hs80a, hs80b]
      (sortJS .healthScore .desc (buildRamMap [hs80a, hs80b]) [hs80a, hs80b]) :=
  sort_stable .healthScore .desc (buildRamMap [hs80a, hs80b]) [hs80a, hs80b] hs80a hs80b
    (by intro h; simp at h)
    (List.Sublist.refl _)
    (by norm_num [comparison, healthKey, hs80a, hs80b, baseNode])

/-- C3 counterexample record: timestamp 0. -/
def q0 : PNode := { baseNode "st-a" with lastSeen := some 0 }

/-- C3 counterexample record: unparsable date. -/
def q1 : PNode := { baseNode "st-b" with lastSeen := none }

/-- C3 counterexample record: timestamp 1. -/
def q2 : PNode := { baseNode "st-c" with lastSeen := some 1 }

/-- The RAM map of the C3 counterexample list. -/
def ram3 : RamMap := buildRamMap [q0, q1, q2]

/-- The descending `lastSeen` sort of `[q0, q1, q2]` (dates: 0, unparsable,
1) produces `[q2, q0, q1]`. -/
theorem sortJS_desc_q : sortJS .lastSeen .desc ram3 [q0, q1, q2] = [q2, q0, q1] := by
  have h01 : sortLE .lastSeen .desc ram3 q0 q1 = true := by
    norm_num [sortLE, comparisonDir, comparison, q0, q1, baseNode]
  have h02 : ¬(sortLE .lastSeen .desc ram3 q0 q2 = true) := by
    norm_num [sortLE, comparisonDir, comparison, q0, q2, baseNode]
  rw [sortJS, mergeSort_three, mergeSort_two, if_pos h01,
    List.cons_merge_cons, if_neg h02, List.merge_right]

/-- C3 counterexample: sorting `[q0, q1, q2]` by `lastSeen` descending,
the pair `q1`, `q2` (whose keys compare equal: `q1`'s date is unparsable)
appears in the input in the order `q1`, `q2` but in the sorted output in
the order `q2`, `q1` — the sort is NOT stable for the inconsistent
`lastSeen` comparator. -/
theorem sort_stable_cex :
    comparison .lastSeen ram3 q1 q2 = 0
    ∧ List.Sublist [q1, q2] [q0, q1, q2]
    ∧ ¬ List.Sublist [q1, q2] (sortJS .lastSeen .desc ram3 [q0, q1, q2]) := by
  refine ⟨by norm_num [comparison, q1, q2, baseNode], by decide, ?_⟩
  rw [sortJS_desc_q]
  decide
